import Mathlib

set_option maxRecDepth 8000

/- Verification of the payroll-ingestion backend.

   The definitions below are a shallow embedding of the TypeScript sources:
   - src/middleware/validate.ts        (normalizePAN, validatePANFlexible)
   - src/controllers/uploadController.ts (getCellValue, findColumns,
     processWorksheet row classification, insertRows upsert planning)
   - src/utils/preetiToUnicode.ts      (convertPreetiToUnicode, fixVowelSigns)

   JavaScript strings are modelled as Lean `String` (a list of Unicode code
   points); `String.prototype.trim` / `toLowerCase` / `replace` are modelled
   character-for-character on the code points that actually occur in this
   code base (ASCII letters, digits, punctuation and Devanagari).  JS numbers
   appearing as cell payloads are modelled at integer values (`Int`), which is
   where every claim under study lives. -/

/-- Digit test, the regex class [0-9]. -/
def isDigitC (c : Char) : Bool := 48 ≤ c.toNat && c.toNat ≤ 57

/-- Whitespace removed by String.prototype.trim (ASCII whitespace plus NBSP). -/
def isWsC (c : Char) : Bool :=
  c.toNat = 32 || c.toNat = 9 || c.toNat = 10 || c.toNat = 13 ||
  c.toNat = 11 || c.toNat = 12 || c.toNat = 160

/-- Strip leading and trailing whitespace from a character list. -/
def trimL (l : List Char) : List Char :=
  ((l.dropWhile isWsC).reverse.dropWhile isWsC).reverse

/-- Model of String.prototype.trim. -/
def jsTrim (s : String) : String := ⟨trimL s.data⟩

/-- Model of x.replace(/[^0-9]/g, ""): keep only the digits. -/
def digitsOnly (s : String) : String := ⟨s.data.filter isDigitC⟩

/-- The cleaning step of normalizePAN: pan.trim().replace(/[^0-9]/g, ""). -/
def cleanPAN (s : String) : List Char := (trimL s.data).filter isDigitC

/-- normalizePAN from src/middleware/validate.ts: trim and strip non-digits;
    empty result stays empty; a 1-8 digit result is left-padded with zeros to
    9 digits (padStart(9, "0")); anything longer passes through unchanged. -/
def normalizePAN (pan : String) : String :=
  let trimmed := cleanPAN pan
  if trimmed.length = 0 then ""
  else if trimmed.length < 9 then ⟨List.replicate (9 - trimmed.length) '0' ++ trimmed⟩
  else ⟨trimmed⟩

/-- validatePANFlexible from src/middleware/validate.ts:
    FLEXIBLE_PAN_REGEX = ^[0-9]{1,17}$ tested on the trimmed string
    (the trailing `length > 0` check of the source is subsumed). -/
def validatePANFlexible (pan : String) : Bool :=
  let t := trimL pan.data
  t.all isDigitC && 1 ≤ t.length && t.length ≤ 17

/-- Cached result of a formula cell: a primitive, or a nested object. -/
inductive FormulaRes where
  | rstr (s : String)
  | rint (n : Int)
  | robj
deriving DecidableEq

inductive CellValue where
  | empty
  | text (s : String)
  | num (n : Int)
  | boolC (b : Bool)
  | date (iso : String)
  | formula (result : Option FormulaRes)
  | richText (runs : List String)
  | hyperlink (t : String)
  | otherObj (errText : String)
deriving DecidableEq

/-- One decimal digit as a character. -/
def digitCh (d : Nat) : Char :=
  if d = 0 then '0' else if d = 1 then '1' else if d = 2 then '2'
  else if d = 3 then '3' else if d = 4 then '4' else if d = 5 then '5'
  else if d = 6 then '6' else if d = 7 then '7' else if d = 8 then '8' else '9'

/-- Decimal digits of a natural number, fuel-structured so the kernel can
    evaluate it (fuel `n` always suffices). -/
def natToCharsGo : Nat → Nat → List Char → List Char
  | 0, n, acc => digitCh (n % 10) :: acc
  | f + 1, n, acc =>
    if n < 10 then digitCh n :: acc
    else natToCharsGo f (n / 10) (digitCh (n % 10) :: acc)

def natToChars (n : Nat) : List Char := natToCharsGo n n []

/-- Model of JS Number#toString at integer values. -/
def intToStr (i : Int) : String :=
  match i with
  | .ofNat n => ⟨natToChars n⟩
  | .negSucc m => ⟨'-' :: natToChars (m + 1)⟩

/-- The generic object placeholder produced by Object.prototype.toString. -/
def ooStr : String := "[object Object]"

/-- JS truthiness of a cell value (the `if (!cell.value) return ''` guard):
    null/undefined, the empty string, the number 0 and false are falsy. -/
def cellFalsy : CellValue → Bool
  | .empty => true
  | .text s => s = ""
  | .num n => n = 0
  | .boolC b => !b
  | _ => false

/-- getCellValue from src/controllers/uploadController.ts (the value part;
    the row/column indirection is modelled separately by getCellAt):
    falsy value → ""; Date → toISOString; formula object → String of the
    cached result ("" if the result is itself an object or absent);
    rich text → concatenation of the run texts; hyperlink → its display
    text when truthy; any other object stringifies to "[object Object]"
    which the final guard turns into ""; primitives → toString().trim(). -/
def getCellValue (cv : CellValue) : String :=
  if cellFalsy cv then ""
  else
    match cv with
    | .date iso => iso
    | .formula res =>
      match res with
      | some (.rstr s) => s
      | some (.rint n) => intToStr n
      | some .robj => ""
      | none => ""
    | .richText runs => String.join runs
    | .hyperlink t => if t = "" then "" else t
    | .otherObj _ => ""
    | .text s => jsTrim s
    | .num n => jsTrim (intToStr n)
    | .boolC _ => "true"
    | .empty => ""

/-- Cells whose own textual payload is what the extractor forwards: a text
    cell (after trimming), a formula whose cached result is that string, a
    rich-text list whose concatenation is it, a hyperlink display text, or a
    Date whose ISO rendering is it.  These are the only cells that can make
    getCellValue return a given non-fabricated string. -/
def literalCarrier (target : String) : CellValue → Prop
  | .text s => jsTrim s = target
  | .formula (some (.rstr s)) => s = target
  | .richText runs => String.join runs = target
  | .hyperlink t => t = target
  | .date iso => iso = target
  | _ => False

/-- The PAN/account disambiguation of processWorksheet
    (uploadController.ts): if the PAN-column digits are longer than 13 and
    the account-column digits are 1-13 long, the two are swapped; if the
    PAN digits are empty but account digits exist, the account digits also
    become the identifier candidate.  Returns (pan, accountNumber). -/
def disambiguate (panClean accountClean : String) : String × String :=
  if panClean.length > 13 ∧ accountClean.length ≤ 13 ∧ accountClean.length > 0 then
    (accountClean, panClean)
  else if panClean = "" ∧ accountClean ≠ "" then
    (accountClean, accountClean)
  else (panClean, accountClean)

/-- Does `hay` start with `needle`? -/
def startsWithL : List Char → List Char → Bool
  | [], _ => true
  | _ :: _, [] => false
  | a :: as, b :: bs => a == b && startsWithL as bs

/-- Literal, left-to-right, non-overlapping replace-all
    (JS text.split(needle).join(repl) for a non-empty needle), structured
    with fuel so the kernel can evaluate it; fuel = length of the list. -/
def replGo (needle repl : List Char) : Nat → List Char → List Char
  | _, [] => []
  | 0, l => l
  | f + 1, c :: rest =>
    if needle ≠ [] ∧ startsWithL needle (c :: rest) = true then
      repl ++ replGo needle repl f ((c :: rest).drop needle.length)
    else c :: replGo needle repl f rest

def replaceAllL (needle repl l : List Char) : List Char := replGo needle repl l.length l

/-- PREETI_MAP from preetiToUnicode.ts, in source order (no duplicate keys,
    so ordered association-list lookup matches JS object lookup). -/
def PREETI_MAP : List (String × String) := [
  ("S", "श"), ("I", "ष"), ("if", "षा"), ("s", "स"), ("x", "ह"),
  ("Q", "क्ष"), ("1", "ज्ञ"), ("q", "त्र"),
  ("c", "अ"), ("cf", "आ"), ("O", "इ"), ("O\x7b", "ई"), ("p", "उ"),
  ("pm", "ऊ"), ("C", "ऋ"), ("P", "ए"), ("P]", "ऐ"), ("cf]", "ओ"),
  ("cf\x7d", "औ"),
  ("k", "प"), ("K", "फ"), ("a", "ब"), ("e", "भ"), ("d", "म"),
  ("t", "त"), ("T", "थ"), ("b", "द"), ("w", "ध"), ("g", "न"),
  ("6", "ट"), ("7", "ठ"), ("8", "ड"), ("9", "ढ"), ("0", "ण"),
  ("r", "च"), ("R", "छ"), ("h", "ज"), ("H", "झ"), ("~", "ञ"),
  ("i", "य"), ("/", "र"), ("n", "ल"), ("j", "व"),
  ("\\", "्"), ("+", "्"), ("f", "ा"), ("F", "ँ"), ("]", "े"),
  ("\x7d", "ै"), ("[", "ृ"), ("l", "ि"), ("L", "ी"), ("u", "ु"),
  ("U", "ू"), ("f]", "ो"), ("f\x7d", "ौ"),
  ("é", "्र"), ("|", "्र"), ("«", "रु"), ("¿", "रू"), ("¤", "ह्र"),
  ("å", "द्व"), ("Ý", "ट्ट"), ("ß", "ट्ठ"), ("Î", "ड्ड"), ("Ï", "ड्ढ"),
  ("Þ", "क्र"), ("क्र", "क्र"), ("ª", "ङ"),
  ("!", "१"), ("@", "२"), ("#", "३"), ("$", "४"), ("%", "५"),
  ("^", "६"), ("&", "७"), ("*", "८"), ("(", "९"), (")", "०"),
  ("=", "।"), ("?", "रु"), ("_", ")"), (".", "।"), (",", ","),
  (";", ";"), (":", ":"),
  ("D", "ं"), ("M", "ः"), ("v", "ख"), ("V", "ख्"), ("y", "य"),
  ("Y", "य्"), ("z", "श"), ("Z", "श्"), ("N", "ण्"), ("G", "घ"),
  ("W", "ध्"), ("o", "अ"), ("m", "ू"),
  ("-", "-"), ("\x27", "्"), ("\"", "\""), ("–", "-"),
  ("‘", "‘"), ("’", "’")]

/-- SPECIAL_SEQUENCES from preetiToUnicode.ts, in source order (the order is
    load-bearing: longest / most specific first). -/
def SPECIAL_SEQUENCES : List (String × String) := [
  ("cf\x7d", "औ"), ("cf]", "ओ"), ("cf", "आ"), ("O\x7b", "ई"),
  ("P]", "ऐ"), ("pm", "ऊ"),
  ("f\x7d", "ौ"), ("f]", "ो"), ("f", "ा"),
  ("Qm", "क्म"), ("Qn", "क्ल"), ("Qj", "क्व"), ("Sb", "ख्य"),
  ("Ub", "घ्य"), ("ª\\", "ङ्"), ("ª्", "ङ्"), ("¨", "ङ्ग"), ("ª", "ङ"),
  ("~r", "ञ्च"), ("~h", "ञ्ज"), ("¬", "ञ्"),
  ("§", "ट्ठ"), ("¶", "ड्ढ"), ("·", "द्द"), ("¸", "द्ध"),
  ("Ab", "द्य"), ("Ad", "द्म"), ("Aj", "द्व"), ("Bb", "द्ध्य"),
  ("To", "थ्य"),
  ("¡", "ज्ञ"), ("1", "ज्ञ"), ("´", "झ्"),
  ("°", "क्त"), ("±", "क्र"), ("²", "क्ष"), ("µ", "द्र"), ("¹", "श्र"),
  ("º", "स्र"), ("»", "ह्य"), ("¼", "ह्र"), ("½", "ह्व"), ("¾", "ह्म"),
  ("Ø", "र्"), ("\x7b", "ै"), ("[", "ृ"),
  ("ß", "ट्ठ"), ("Î", "ड्ड"), ("Þ", "क्र"), ("Ý", "ट्ट")]

/-- handleRepha from preetiToUnicode.ts:
    text.replace(/Ø([क-ह])/g, "$1र्") — every sentinel glyph followed by a
    consonant in the range क-ह is rewritten to consonant + combining r. -/
def handleRephaL : List Char → List Char
  | [] => []
  | 'Ø' :: c :: rest =>
    if 'क' ≤ c ∧ c ≤ 'ह' then c :: 'र' :: '्' :: handleRephaL rest
    else 'Ø' :: handleRephaL (c :: rest)
  | c :: rest => c :: handleRephaL rest

def preetiLookup (k : String) : Option String :=
  (PREETI_MAP.find? (fun p => p.1 == k)).map (·.2)

/-- The left-to-right scan of convertPreetiToUnicode: a two-character table
    lookup is preferred over a one-character lookup; unmapped characters
    pass through unchanged. -/
def scanMap : List Char → List Char
  | [] => []
  | [a] =>
    match preetiLookup ⟨[a]⟩ with
    | some u => u.data
    | none => [a]
  | a :: b :: rest =>
    match preetiLookup ⟨[a, b]⟩ with
    | some u => u.data ++ scanMap rest
    | none =>
      (match preetiLookup ⟨[a]⟩ with
       | some u => u.data
       | none => [a]) ++ scanMap (b :: rest)

/-- One pass of text.replace(/X{2,}/g, "X"): collapse every run of two or
    more copies of `c` into a single copy. -/
def collapseChar (c : Char) : List Char → List Char
  | [] => []
  | [a] => [a]
  | a :: b :: rest =>
    if a == c && b == c then collapseChar c (b :: rest)
    else a :: collapseChar c (b :: rest)

/-- The nine combining vowel signs that fixVowelSigns collapses, in the
    order of the source's replace chain. -/
def vowelCollapseList : List Char := ['ा', 'ि', 'ी', 'ु', 'ू', 'े', 'ै', 'ो', 'ौ']

/-- fixVowelSigns from preetiToUnicode.ts: sequentially collapse doubled
    occurrences of each of the nine handled vowel signs. -/
def fixVowelSigns (s : String) : String :=
  ⟨vowelCollapseList.foldl (fun l c => collapseChar c l) s.data⟩

/-- convertPreetiToUnicode from preetiToUnicode.ts: ordered multi-character
    substitutions, repha repositioning, greedy two-then-one character table
    scan, and the vowel-sign collapse post-pass. -/
def convertPreetiToUnicode (text : String) : String :=
  if text = "" then text
  else
    let r1 := SPECIAL_SEQUENCES.foldl (fun acc pu => replaceAllL pu.1.data pu.2.data acc) text.data
    let r2 := handleRephaL r1
    let r3 := scanMap r2
    fixVowelSigns ⟨r3⟩

/-- The combining dependent vowel signs of Devanagari that this engine can
    emit (the nine handled ones plus the vocalic-r sign ृ U+0943). -/
def devanagariVowelSigns : List Char :=
  ['ा', 'ि', 'ी', 'ु', 'ू', 'ृ', 'े', 'ै', 'ो', 'ौ']

/-- Is some character equal to `c` immediately followed by another copy? -/
def hasAdjacent (c : Char) : List Char → Bool
  | a :: b :: rest => (a == c && b == c) || hasAdjacent c (b :: rest)
  | _ => false

structure DutyDays where
  month1 : Option Int
  month2 : Option Int
  month3 : Option Int
  total : Option Int
deriving DecidableEq

/-- ParsedRow as built by processWorksheet. -/
structure ParsedRow where
  pan : String
  name : Option String
  nameNepali : Option String
  position : Option String
  positionNepali : Option String
  department : Option String
  departmentNepali : Option String
  accountNumber : Option String
  dutyDays : Option DutyDays
  rate : Option Int
  grossAmount : Option Int
  taxDeduction : Option Int
  netSalary : Int
  rowHash : String
deriving DecidableEq

/-- A stored SalaryRecord document. -/
structure StoredRecord where
  pan : String
  name : Option String
  nameNepali : Option String
  position : Option String
  positionNepali : Option String
  department : Option String
  departmentNepali : Option String
  accountNumber : Option String
  dutyDays : Option DutyDays
  rate : Option Int
  grossAmount : Option Int
  taxDeduction : Option Int
  netSalary : Int
  rowHash : String
  source : String
  uploadedAt : Nat
deriving DecidableEq

/-- The $set clause of the bulk op: the mutable fields always rewritten. -/
def setMutable (r : StoredRecord) (row : ParsedRow) (src : String) (now : Nat) :
    StoredRecord :=
  { r with
    dutyDays := row.dutyDays
    rate := row.rate
    grossAmount := row.grossAmount
    taxDeduction := row.taxDeduction
    netSalary := row.netSalary
    rowHash := row.rowHash
    source := src
    uploadedAt := now }

/-- Document created on upsert-insert: both $set and $setOnInsert apply. -/
def insertRecord (row : ParsedRow) (src : String) (now : Nat) : StoredRecord :=
  { pan := row.pan
    name := row.name
    nameNepali := row.nameNepali
    position := row.position
    positionNepali := row.positionNepali
    department := row.department
    departmentNepali := row.departmentNepali
    accountNumber := row.accountNumber
    dutyDays := row.dutyDays
    rate := row.rate
    grossAmount := row.grossAmount
    taxDeduction := row.taxDeduction
    netSalary := row.netSalary
    rowHash := row.rowHash
    source := src
    uploadedAt := now }

/-- One updateOne op with filter {pan: row.pan} and upsert: true, applied to
    the collection: mutate the first pan match, or append a new document. -/
def applyOp : List StoredRecord → ParsedRow → String → Nat → List StoredRecord
  | [], row, src, now => [insertRecord row src now]
  | r :: rest, row, src, now =>
    if r.pan = row.pan then setMutable r row src now :: rest
    else r :: applyOp rest row src now

/-- The whole bulkWrite: ops applied in row order (worksheets and rows are
    walked strictly in order, so op order is file-processing order). -/
def applyBatch (db : List StoredRecord) (rows : List ParsedRow) (src : String)
    (now : Nat) : List StoredRecord :=
  rows.foldl (fun d row => applyOp d row src now) db

/-- Lookup of the (first) document with the given pan. -/
def findRec (db : List StoredRecord) (p : String) : Option StoredRecord :=
  db.find? (fun r => r.pan = p)

/-- The identity fields: set on first sight only ($setOnInsert). -/
def identityOf (r : StoredRecord) :
    Option String × Option String × Option String × Option String ×
      Option String × Option String × Option String :=
  (r.name, r.nameNepali, r.position, r.positionNepali, r.department,
    r.departmentNepali, r.accountNumber)

/-- The mutable fields: rewritten by $set on every upload. -/
def mutableOf (r : StoredRecord) :
    Option DutyDays × Option Int × Option Int × Option Int × Int × String ×
      String × Nat :=
  (r.dutyDays, r.rate, r.grossAmount, r.taxDeduction, r.netSalary, r.rowHash,
    r.source, r.uploadedAt)

/-- The identity fields a row would store on insert. -/
def rowIdentityOf (row : ParsedRow) :
    Option String × Option String × Option String × Option String ×
      Option String × Option String × Option String :=
  (row.name, row.nameNepali, row.position, row.positionNepali, row.department,
    row.departmentNepali, row.accountNumber)

/-- The mutable-field values a row writes. -/
def rowMutableOf (row : ParsedRow) (src : String) (now : Nat) :
    Option DutyDays × Option Int × Option Int × Option Int × Int × String ×
      String × Nat :=
  (row.dutyDays, row.rate, row.grossAmount, row.taxDeduction, row.netSalary,
    row.rowHash, src, now)

/-- No two documents share a pan. -/
def nodupPans (db : List StoredRecord) : Prop := (db.map (·.pan)).Nodup

/-- A stored record and an upload batch used as concrete witnesses. -/
def demoRecord : StoredRecord :=
  { pan := "000000001", name := some "Alice", nameNepali := none,
    position := some "Clerk", positionNepali := none,
    department := some "Ward", departmentNepali := none,
    accountNumber := some "1234567890123", dutyDays := none,
    rate := some 500, grossAmount := some 15000, taxDeduction := some 150,
    netSalary := 14850, rowHash := "h0", source := "a.xlsx", uploadedAt := 1 }

def demoDb : List StoredRecord := [demoRecord]

def demoRow : ParsedRow :=
  { pan := "000000001", name := some "Bob", nameNepali := none,
    position := some "Nurse", positionNepali := none,
    department := some "ICU", departmentNepali := none,
    accountNumber := some "9999999999999", dutyDays := none,
    rate := some 600, grossAmount := some 18000, taxDeduction := some 180,
    netSalary := 17820, rowHash := "h1" }

def demoRow2 : ParsedRow :=
  { demoRow with rate := some 700, netSalary := 20000, rowHash := "h2" }

/-- Model of String.prototype.toLowerCase on the code points this code base
    uses (ASCII letters; Devanagari and Preeti punctuation have no case). -/
def toLowerC (c : Char) : Char :=
  if 65 ≤ c.toNat ∧ c.toNat ≤ 90 then Char.ofNat (c.toNat + 32) else c

def jsToLower (s : String) : String := ⟨s.data.map toLowerC⟩

/-- Substring containment, String.prototype.includes. -/
def containsSubL : List Char → List Char → Bool
  | [], needle => needle.isEmpty
  | a :: t, needle => startsWithL needle (a :: t) || containsSubL t needle

def jsIncludes (hay needle : String) : Bool := containsSubL hay.data needle.data

/-- A populated worksheet row: its non-empty cells in column order. -/
abbrev Row := List (Nat × CellValue)

/-- getCellValue(row, colNumber): the cell at that column, "" if absent. -/
def getCellValueAt (row : Row) (col : Nat) : String :=
  match row.find? (fun pc => pc.1 = col) with
  | some pc => getCellValue pc.2
  | none => ""

/-- The callers' `mapping.xCol ? getCellValue(row, mapping.xCol) : ""`
    pattern together with getCellValue's `if (!colIndex) return ""` guard. -/
def getCellAtOpt (row : Row) (col : Option Nat) : String :=
  match col with
  | some c => if c = 0 then "" else getCellValueAt row c
  | none => ""

/- COLUMN_PATTERNS from uploadController.ts (English, Nepali Unicode and
   Preeti surface forms), in source order. -/

def panPatterns : List String :=
  ["pan", "पान", "kfg", "kfg g", "kfg g+", "kfg g+=", "kfgg", "pan no",
   "panno", "pan number", "पान नं", "पान नं.", "kfg g++=", "kfgg+", "kfgg+="]

def namePatterns : List String :=
  ["name", "gfdy", "gfdy/", "नाम", "employee", "sd\x7brf/L", "कर्मचारी"]

def positionPatterns : List String :=
  ["position", "kb", "पद", "designation", "post"]

def departmentPatterns : List String :=
  ["department", "dept", "ward", "sfo", "sfo/t", "sfo\x7b/t", "ljefu",
   "विभाग", "sfo\x7b/t ljefu", "s\x7dlkmot"]

def accountPatterns : List String :=
  ["account", "vftf", "vftf g", "vftf g+", "vftf g+=", "खाता", "a/c", "bank",
   "खाता नं"]

def duty1Patterns : List String :=
  [">fj)f", "efbl", "efb|", "sflt\x7bs", "श्रावण", "भाद्र", "कार्तिक",
   "shrawan", "bhadra", "kartik", "month1"]

def duty2Patterns : List String :=
  ["efbl", "efb|", "efb\x7d", "cflZjg", "d+l;/", "भाद्र", "आश्विन", "मंसिर",
   "bhadra", "ashwin", "mangsir", "month2"]

def duty3Patterns : List String :=
  ["cflZjg", "kf\x7dif", "df3", "आश्विन", "पौष", "माघ", "ashwin", "poush",
   "magh", "month3"]

def dutyTotalPatterns : List String :=
  ["hDdf", "hDdf lbg", "जम्मा", "total", "total duty", "total days",
   "कुल दिन"]

def ratePatterns : List String := ["b/", "दर", "rate", "per day", "daily"]

def grossPatterns : List String :=
  ["kfpg] /sd", "/sd", "पाउने रकम", "gross", "amount", "रकम"]

def taxPatterns : List String :=
  ["kfl/>lds", "kfl/>lds s/", "कर", "tax", "tds", "deduction"]

def netSalaryPatterns : List String :=
  ["s\x27n kfpg]", "s\x27n kfpg]", "s\x27n", "कुल पाउने", "net", "net salary",
   "कुल तलब"]

structure ColumnMapping where
  panCol : Option Nat
  nameCol : Option Nat
  positionCol : Option Nat
  departmentCol : Option Nat
  accountCol : Option Nat
  duty1Col : Option Nat
  duty2Col : Option Nat
  duty3Col : Option Nat
  dutyTotalCol : Option Nat
  rateCol : Option Nat
  grossCol : Option Nat
  taxCol : Option Nat
  netSalaryCol : Option Nat
  headerRow : Nat
deriving DecidableEq

/-- findColumnByPatterns: first header column (in cell order) whose
    lower-cased text contains any lower-cased pattern. -/
def findColumnByPatterns (headers : List (Nat × String)) (patterns : List String) :
    Option Nat :=
  (headers.find? (fun cv =>
    patterns.any (fun p => jsIncludes (jsToLower cv.2) (jsToLower p)))).map (·.1)

/-- The column → header-text map a candidate header row yields (non-empty
    extracted values only, in cell order). -/
def rowHeaders (row : Row) : List (Nat × String) :=
  row.filterMap (fun pc =>
    let v := getCellValue pc.2
    if v = "" then none else some (pc.1, v))

/-- The mapping findColumns returns for a qualifying header row. -/
def mkMapping (rowNum : Nat) (headers : List (Nat × String)) : ColumnMapping :=
  { panCol := findColumnByPatterns headers panPatterns
    nameCol := findColumnByPatterns headers namePatterns
    positionCol := findColumnByPatterns headers positionPatterns
    departmentCol := findColumnByPatterns headers departmentPatterns
    accountCol := findColumnByPatterns headers accountPatterns
    duty1Col := findColumnByPatterns headers duty1Patterns
    duty2Col := findColumnByPatterns headers duty2Patterns
    duty3Col := findColumnByPatterns headers duty3Patterns
    dutyTotalCol := findColumnByPatterns headers dutyTotalPatterns
    rateCol := findColumnByPatterns headers ratePatterns
    grossCol := findColumnByPatterns headers grossPatterns
    taxCol := findColumnByPatterns headers taxPatterns
    netSalaryCol := findColumnByPatterns headers netSalaryPatterns
    headerRow := rowNum }

/-- The qualification test of findColumns: an identifier-capable column
    (PAN or account) and an amount-capable column (net or gross). -/
def rowQualifies (row : Row) : Bool :=
  let headers := rowHeaders row
  ((findColumnByPatterns headers panPatterns).isSome ||
      (findColumnByPatterns headers accountPatterns).isSome) &&
    ((findColumnByPatterns headers netSalaryPatterns).isSome ||
      (findColumnByPatterns headers grossPatterns).isSome)

def checkHeaderRow (rowNum : Nat) (row : Row) : Option ColumnMapping :=
  if rowQualifies row then some (mkMapping rowNum (rowHeaders row)) else none

def findColumnsGo : List Row → Nat → Option ColumnMapping
  | [], _ => none
  | r :: rest, n =>
    match checkHeaderRow n r with
    | some m => some m
    | none => findColumnsGo rest (n + 1)

/-- findColumns from uploadController.ts: scan rows 1..min(20, rowCount) for
    the first row holding both an identifier-family and an amount-family
    header; none found → null. -/
def findColumns (ws : List Row) : Option ColumnMapping := findColumnsGo (ws.take 20) 1

/-- The fallback mapping processWorksheet builds when findColumns is null:
    headerRow = 0 and no column assignments. -/
def fallbackMapping : ColumnMapping :=
  { panCol := none, nameCol := none, positionCol := none,
    departmentCol := none, accountCol := none, duty1Col := none,
    duty2Col := none, duty3Col := none, dutyTotalCol := none,
    rateCol := none, grossCol := none, taxCol := none, netSalaryCol := none,
    headerRow := 0 }

def effectiveMapping (ws : List Row) : ColumnMapping :=
  (findColumns ws).getD fallbackMapping

/-- The worksheet row with 1-based number r. -/
def wsRow (ws : List Row) (r : Nat) : Row := ws.getD (r - 1) []

/-- A worksheet whose first row is not a header and whose second row is. -/
def demoHeaderWs : List Row :=
  [[(1, .text "x")], [(1, .text "pan"), (2, .text "net")]]

/-- The mapping findColumns produces for demoHeaderWs. -/
def demoMapping : ColumnMapping :=
  { panCol := some 1, nameCol := none, positionCol := none,
    departmentCol := none, accountCol := none, duty1Col := none,
    duty2Col := none, duty3Col := none, dutyTotalCol := none,
    rateCol := none, grossCol := none, taxCol := none,
    netSalaryCol := some 2, headerRow := 2 }

inductive RowOutcome where
  | preHeader
  | headerLike
  | noIdentifier
  | invalidId
  | parsed (identifier : String)
deriving DecidableEq

/-- The stray-header keyword list of processWorksheet. -/
def headerKeywords : List String :=
  ["s.n", "sn", "क्र.सं", "नाम", "name", "pan", "पान", "salary", "तलब",
   "total", "grand total", "जम्मा"]

/-- How Array.prototype.join stringifies one element of row.values: strings
    verbatim, numbers in decimal, holes as ""; cell objects (formula, rich
    text, hyperlink, error) print as "[object Object]".  A Date prints as a
    date string, modelled by its ISO rendering (neither rendering can match
    a header-keyword check, which is all this value is used for). -/
def jsStringifyCell : CellValue → String
  | .empty => ""
  | .text s => s
  | .num n => intToStr n
  | .boolC b => if b then "true" else "false"
  | .date iso => iso
  | .formula _ => "[object Object]"
  | .richText _ => "[object Object]"
  | .hyperlink _ => "[object Object]"
  | .otherObj _ => "[object Object]"

def joinComma : List String → String
  | [] => ""
  | s :: rest => rest.foldl (fun a b => a ++ "," ++ b) s

def rowMaxCol (row : Row) : Nat := row.foldl (fun m pc => max m pc.1) 0

/-- row.values?.toString() — the sparse 0-indexed values array (slot 0 is
    always a hole) joined with commas. -/
def jsRowValuesString (row : Row) : String :=
  match row with
  | [] => ""
  | _ =>
    joinComma ((List.range (rowMaxCol row + 1)).map (fun c =>
      if c = 0 then ""
      else
        match row.find? (fun pc => pc.1 = c) with
        | some pc => jsStringifyCell pc.2
        | none => ""))

/-- The whole-row fallback scan for an identifier: keep the current PAN
    digits once they are 1-17 long; otherwise prefer the first 9-digit cell
    and accept any first 1-17-digit cell when none was found yet. -/
def scanForPan (row : Row) (init : String) : String :=
  row.foldl (fun acc pc =>
    if acc ≠ "" ∧ acc.length ≤ 17 then acc
    else
      let cellVal := digitsOnly (getCellValue pc.2)
      if cellVal.length = 9 then cellVal
      else if acc = "" ∧ 1 ≤ cellVal.length ∧ cellVal.length ≤ 17 then cellVal
      else acc) init

/-- The eachRow callback of processWorksheet as a row classifier. -/
def classifyRow (m : ColumnMapping) (rowNumber : Nat) (row : Row) : RowOutcome :=
  if rowNumber ≤ m.headerRow then .preHeader
  else
    let rowTextOriginal := jsRowValuesString row
    let rowText := jsToLower rowTextOriginal
    if jsIncludes rowTextOriginal "l;=g++" || jsIncludes rowTextOriginal "l;=g+" ||
        jsIncludes rowTextOriginal "qm=;+=" then .headerLike
    else if 3 ≤ (headerKeywords.filter (fun k => jsIncludes rowText k)).length then
      .headerLike
    else
      let panRaw := getCellAtOpt row m.panCol
      let accountRaw := getCellAtOpt row m.accountCol
      let panClean0 := digitsOnly panRaw
      let accountClean := digitsOnly accountRaw
      let panClean :=
        if panClean0 = "" ∨ 17 < panClean0.length then scanForPan row panClean0
        else panClean0
      let pa := disambiguate panClean accountClean
      let identifier0 := normalizePAN pa.1
      let identifier :=
        if identifier0 = "" ∧ pa.2 ≠ "" ∧ 10 ≤ pa.2.length then pa.2
        else identifier0
      if identifier = "" then .noIdentifier
      else
        let isValidPan := validatePANFlexible identifier
        let isValidAccount :=
          10 ≤ identifier.length && identifier.length ≤ 20 &&
            identifier.data.all isDigitC
        if !isValidPan && !isValidAccount then .invalidId
        else .parsed identifier

/-- Per-worksheet counters: rowsRead counts every row that reaches
    result.rowsRead++ (the invalid and the emitted ones); wsSkipped counts
    the rows processWorksheet itself skips via result.skipped++; pans are
    the identifiers of the emitted rows, in order. -/
structure WsStats where
  rowsRead : Nat
  wsSkipped : Nat
  pans : List String
deriving DecidableEq

def outcomeCounted : RowOutcome → Bool
  | .invalidId => true
  | .parsed _ => true
  | _ => false

def outcomeInvalid : RowOutcome → Bool
  | .invalidId => true
  | _ => false

def outcomePan : RowOutcome → Option String
  | .parsed p => some p
  | _ => none

def classifyWorksheet (ws : List Row) : List RowOutcome :=
  let m := effectiveMapping ws
  ws.enum.map (fun ir => classifyRow m (ir.1 + 1) ir.2)

def processWorksheetModel (ws : List Row) : WsStats :=
  let os := classifyWorksheet ws
  { rowsRead := (os.filter outcomeCounted).length
    wsSkipped := (os.filter outcomeInvalid).length
    pans := os.filterMap outcomePan }

/-- The success path of SalaryRecord.bulkWrite over the batch, op by op in
    row order against a pan-keyed store: upsertedCount counts the ops whose
    pan was absent when the op ran, modifiedCount the ops that matched an
    existing document (every matched op rewrites uploadedAt with a fresh
    Date, so it modifies the document). -/
def bulkCounts : List String → List String → Nat × Nat
  | _, [] => (0, 0)
  | db, p :: rest =>
    if p ∈ db then
      let iu := bulkCounts db rest
      (iu.1, iu.2 + 1)
    else
      let iu := bulkCounts (p :: db) rest
      (iu.1 + 1, iu.2)

/-- The per-file UploadOutcome counters (updated is insertRows' local
    `updated` variable, the spec's UploadOutcome.updated). -/
structure FileOutcome where
  rowsRead : Nat
  inserted : Nat
  updated : Nat
  skipped : Nat
deriving DecidableEq

def fileStats (file : List (List Row)) : List WsStats :=
  file.map processWorksheetModel

def filePans (file : List (List Row)) : List String :=
  ((fileStats file).map (·.pans)).flatten

def fileWsSkipped (file : List (List Row)) : Nat :=
  ((fileStats file).map (·.wsSkipped)).sum

def fileRowsRead (file : List (List Row)) : Nat :=
  ((fileStats file).map (·.rowsRead)).sum

/-- processExcelFile + insertRows (success path): all worksheets are parsed
    in order, then the batch is upserted.  With no parsed rows insertRows
    returns early and result.skipped keeps the parse-stage count; otherwise
    the source OVERWRITES result.skipped with
    rows.length - upsertedCount - modifiedCount, discarding the parse-stage
    skips. -/
def processFileModel (file : List (List Row)) (db : List String) : FileOutcome :=
  if filePans file = [] then
    { rowsRead := fileRowsRead file, inserted := 0, updated := 0,
      skipped := fileWsSkipped file }
  else
    let iu := bulkCounts db (filePans file)
    { rowsRead := fileRowsRead file, inserted := iu.1, updated := iu.2,
      skipped := (filePans file).length - iu.1 - iu.2 }

/-- A one-worksheet file: a header row, a row whose only digit token is 21
    digits long (read but invalid: 21 exceeds both the 17-digit flexible
    bound and the 20-digit account bound), and one valid row. -/
def demoFile : List (List Row) :=
  [[[(1, .text "pan"), (2, .text "net")],
    [(1, .text "123456789012345678901"), (2, .text "100")],
    [(1, .text "123456789"), (2, .text "100")]]]

theorem isDigitC_not_ws (c : Char) (h : isDigitC c = true) : isWsC c = false := by
  simp only [isDigitC, Bool.and_eq_true, decide_eq_true_eq] at h
  simp only [isWsC, Bool.or_eq_false_iff, decide_eq_false_iff_not]
  omega

theorem dropWhile_ws_of_digits (l : List Char) (h : ∀ c ∈ l, isDigitC c = true) :
    l.dropWhile isWsC = l := by
  cases l with
  | nil => rfl
  | cons a t =>
    have ha : isWsC a = false := isDigitC_not_ws a (h a (List.mem_cons_self a t))
    simp [List.dropWhile_cons, ha]

theorem trimL_of_digits (l : List Char) (h : ∀ c ∈ l, isDigitC c = true) :
    trimL l = l := by
  unfold trimL
  rw [dropWhile_ws_of_digits l h]
  rw [dropWhile_ws_of_digits l.reverse (fun c hc => h c (List.mem_reverse.mp hc))]
  exact List.reverse_reverse l

theorem filter_digits_of_digits (l : List Char) (h : ∀ c ∈ l, isDigitC c = true) :
    l.filter isDigitC = l := List.filter_eq_self.mpr h

theorem cleanPAN_mem_digit (s : String) : ∀ c ∈ cleanPAN s, isDigitC c = true := by
  intro c hc
  exact (List.mem_filter.mp hc).2

theorem cleanPAN_of_digits (l : List Char) (h : ∀ c ∈ l, isDigitC c = true) :
    cleanPAN ⟨l⟩ = l := by
  unfold cleanPAN
  show (trimL l).filter isDigitC = l
  rw [trimL_of_digits l h, filter_digits_of_digits l h]

theorem normalizePAN_digits (s : String) :
    ∀ c ∈ (normalizePAN s).data, isDigitC c = true := by
  unfold normalizePAN
  by_cases h0 : (cleanPAN s).length = 0
  · simp [h0]
  · by_cases h9 : (cleanPAN s).length < 9
    · simp only [h0, h9, if_false, if_true]
      intro c hc
      rcases List.mem_append.mp hc with hrep | hmem
      · rw [List.eq_of_mem_replicate hrep]; rfl
      · exact cleanPAN_mem_digit s c hmem
    · simp only [h0, h9, if_false]
      intro c hc
      exact cleanPAN_mem_digit s c hc

/-- C9: the identifier normalizer is idempotent — for every input string x,
    normalizePAN (normalizePAN x) = normalizePAN x. -/
theorem normalizePAN_idempotent (x : String) :
    normalizePAN (normalizePAN x) = normalizePAN x := by
  have hd : ∀ c ∈ (normalizePAN x).data, isDigitC c = true := normalizePAN_digits x
  have hclean : cleanPAN (normalizePAN x) = (normalizePAN x).data := by
    have := cleanPAN_of_digits (normalizePAN x).data hd
    simpa using this
  unfold normalizePAN at *
  by_cases h0 : (cleanPAN x).length = 0
  · simp [h0] at hclean ⊢
    simp [h0] at hd ⊢
    simp [hclean]
  · by_cases h9 : (cleanPAN x).length < 9
    · simp only [h0, h9, if_false, if_true] at hclean ⊢
      have hlen : (List.replicate (9 - (cleanPAN x).length) '0' ++ cleanPAN x).length = 9 := by
        simp [List.length_append, List.length_replicate]
        omega
      rw [hclean]
      simp only [hlen]
      norm_num
    · simp only [h0, h9, if_false] at hclean ⊢
      rw [hclean]
      simp only [h0, h9, if_false]

/-- C10: normalizePAN returns either the empty string or an all-digit string
    of length at least 9; it never returns a digit string of length 1-8. -/
theorem normalizePAN_no_short_digits (x : String) :
    normalizePAN x = "" ∨
      ((∀ c ∈ (normalizePAN x).data, isDigitC c = true) ∧
        9 ≤ (normalizePAN x).data.length) := by
  by_cases h0 : (cleanPAN x).length = 0
  · left
    unfold normalizePAN
    simp [h0]
  · right
    refine ⟨normalizePAN_digits x, ?_⟩
    unfold normalizePAN
    by_cases h9 : (cleanPAN x).length < 9
    · simp only [h0, h9, if_false, if_true]
      simp [List.length_append, List.length_replicate]
      omega
    · simp only [h0, h9, if_false]
      omega

/- Cell values.  ExcelJS hands uploadController a typed cell value:
   null/undefined, string, number, boolean, Date, formula object (with an
   optional cached result), rich-text run list, hyperlink object, or an
   error/other object of unrecognized shape whose JS toString() is the
   generic "[object Object]".  Number payloads are modelled at integer
   values; a Date is modelled by the string its toISOString() returns. -/

theorem digitCh_ne_bracket (d : Nat) : digitCh d ≠ '[' := by
  unfold digitCh
  repeat' split
  all_goals decide

theorem digitCh_not_ws (d : Nat) : isWsC (digitCh d) = false := by
  unfold digitCh
  repeat' split
  all_goals decide

theorem natToCharsGo_head (f n : Nat) (acc : List Char) :
    ∃ d t, natToCharsGo f n acc = digitCh d :: t := by
  induction f generalizing n acc with
  | zero => exact ⟨n % 10, acc, rfl⟩
  | succ f ih =>
    by_cases h : n < 10
    · exact ⟨n, acc, by simp [natToCharsGo, h]⟩
    · obtain ⟨d, t, ht⟩ := ih (n / 10) (digitCh (n % 10) :: acc)
      exact ⟨d, t, by simp [natToCharsGo, h, ht]⟩

theorem dropWhile_append_last {p : Char → Bool} {a : Char} (xs : List Char)
    (ha : p a = false) : ∃ zs, (xs ++ [a]).dropWhile p = zs ++ [a] := by
  induction xs with
  | nil => exact ⟨[], by simp [List.dropWhile_cons, ha]⟩
  | cons x xs ih =>
    by_cases hx : p x = true
    · obtain ⟨zs, hzs⟩ := ih
      exact ⟨zs, by simp [List.dropWhile_cons, hx, hzs]⟩
    · exact ⟨x :: xs, by simp [List.dropWhile_cons, hx]⟩

/-- Trimming a list whose head is not whitespace keeps that head. -/
theorem trimL_cons_head {a : Char} (l : List Char) (ha : isWsC a = false) :
    ∃ t, trimL (a :: l) = a :: t := by
  unfold trimL
  rw [List.dropWhile_cons]
  simp only [ha, Bool.false_eq_true, if_false]
  have : (a :: l).reverse = l.reverse ++ [a] := by simp
  rw [this]
  obtain ⟨zs, hzs⟩ := dropWhile_append_last l.reverse ha
  rw [hzs]
  exact ⟨zs.reverse, by simp⟩

theorem intToStr_ne_oo (n : Int) : jsTrim (intToStr n) ≠ ooStr := by
  have head : ∃ c t, (intToStr n).data = c :: t ∧ c ≠ '[' ∧ isWsC c = false := by
    cases n with
    | ofNat m =>
      obtain ⟨d, t, ht⟩ := natToCharsGo_head m m []
      exact ⟨digitCh d, t, by simp [intToStr, natToChars, ht],
        digitCh_ne_bracket d, digitCh_not_ws d⟩
    | negSucc m =>
      exact ⟨'-', natToChars (m + 1), rfl, by decide, by decide⟩
  obtain ⟨c, t, hdata, hne, hws⟩ := head
  intro hcontra
  have : jsTrim (intToStr n) = ⟨trimL (c :: t)⟩ := by
    unfold jsTrim
    rw [hdata]
  obtain ⟨t', ht'⟩ := trimL_cons_head t hws
  rw [this, ht'] at hcontra
  have : c :: t' = ooStr.data := congrArg String.data hcontra
  have hc : c = '[' := by
    have := congrArg (List.headD · ' ') this
    simpa [ooStr] using this
  exact hne hc

theorem intToStr_raw_ne_oo (n : Int) : intToStr n ≠ ooStr := by
  have head : ∃ c t, (intToStr n).data = c :: t ∧ c ≠ '[' := by
    cases n with
    | ofNat m =>
      obtain ⟨d, t, ht⟩ := natToCharsGo_head m m []
      exact ⟨digitCh d, t, by simp [intToStr, natToChars, ht], digitCh_ne_bracket d⟩
    | negSucc m =>
      exact ⟨'-', natToChars (m + 1), rfl, by decide⟩
  obtain ⟨c, t, hdata, hne⟩ := head
  intro hcontra
  rw [hcontra] at hdata
  have hc : c = '[' := by
    have := congrArg (List.headD · ' ') hdata
    simpa [ooStr] using this.symm
  exact hne hc

/-- C4 counterexample: the claim says the extractor NEVER returns the
    placeholder string, but a text cell whose own content is literally
    "[object Object]" is forwarded verbatim. -/
theorem getCellValue_oo_text_passthrough :
    getCellValue (.text "[object Object]") = ooStr := by decide

/-- C4 (amended): a cell whose value is an object of unrecognized shape
    yields the empty string, and the extractor never fabricates
    "[object Object]": whenever the result is that string, the cell's own
    textual payload (text, cached formula string, rich-text concatenation,
    hyperlink text or date rendering) was literally that string. -/
theorem getCellValue_never_fabricates_oo :
    (∀ e, getCellValue (.otherObj e) = "") ∧
      (∀ cv, getCellValue cv = ooStr → literalCarrier ooStr cv) := by
  constructor
  · intro e; rfl
  · intro cv h
    cases cv with
    | empty => exact absurd h (by decide)
    | text s =>
      by_cases hs : s = ""
      · rw [hs] at h; exact absurd h (by decide)
      · simpa [getCellValue, cellFalsy, hs, literalCarrier] using h
    | num n =>
      by_cases hn : n = 0
      · rw [hn] at h; exact absurd h (by decide)
      · have : getCellValue (.num n) = jsTrim (intToStr n) := by
          simp [getCellValue, cellFalsy, hn]
        rw [this] at h
        exact absurd h (intToStr_ne_oo n)
    | boolC b =>
      cases b with
      | false => exact absurd h (by decide)
      | true => exact absurd h (by decide)
    | date iso => simpa [getCellValue, cellFalsy, literalCarrier] using h
    | formula res =>
      match res with
      | some (.rstr s) => simpa [getCellValue, cellFalsy, literalCarrier] using h
      | some (.rint n) =>
        have : getCellValue (.formula (some (.rint n))) = intToStr n := rfl
        rw [this] at h
        exact absurd h (intToStr_raw_ne_oo n)
      | some .robj => exact absurd h (by decide)
      | none => exact absurd h (by decide)
    | richText runs => simpa [getCellValue, cellFalsy, literalCarrier] using h
    | hyperlink t =>
      by_cases ht : t = ""
      · rw [ht] at h; exact absurd h (by decide)
      · simpa [getCellValue, cellFalsy, ht, literalCarrier] using h
    | otherObj e =>
      have he : getCellValue (.otherObj e) = "" := rfl
      rw [he] at h
      exact absurd h (by decide)

/-- C4 witness: the amended theorem applied at a concrete hyperlink cell
    whose display text is the placeholder string. -/
theorem getCellValue_never_fabricates_oo_witness :
    getCellValue (.hyperlink ooStr) = ooStr ∧
      literalCarrier ooStr (.hyperlink ooStr) :=
  ⟨by decide, getCellValue_never_fabricates_oo.2 (.hyperlink ooStr) (by decide)⟩

/-- C5 counterexample: a number cell holding 0 is falsy in JS, so the
    extractor returns "" instead of the trimmed string form "0". -/
theorem getCellValue_num_zero :
    getCellValue (.num 0) ≠ jsTrim (intToStr 0) := by decide

/-- C5 (amended): for every text cell the extractor returns the text
    trimmed, and for every nonzero number cell it returns the number's
    string form trimmed; the falsy number 0 yields "" instead.  The
    extractor is a total Lean function, hence pure and side-effect free. -/
theorem getCellValue_primitive (s : String) (n : Int) (hn : n ≠ 0) :
    getCellValue (.text s) = jsTrim s ∧
      getCellValue (.num n) = jsTrim (intToStr n) ∧
      getCellValue (.num 0) = "" := by
  refine ⟨?_, ?_, rfl⟩
  · by_cases hs : s = ""
    · subst hs; decide
    · simp [getCellValue, cellFalsy, hs]
  · simp [getCellValue, cellFalsy, hn]

/-- C5 witness: the amended theorem applied at text " a " and number 5. -/
theorem getCellValue_primitive_witness :
    (5 : Int) ≠ 0 ∧
      (getCellValue (.text " a ") = jsTrim " a " ∧
        getCellValue (.num 5) = jsTrim (intToStr 5) ∧
        getCellValue (.num 0) = "") :=
  ⟨by decide, getCellValue_primitive " a " 5 (by decide)⟩

/-- C7 counterexample: the claim's concrete instance is false on the code —
    a 13-digit PAN-column value does NOT exceed 13, so no swap happens and
    the pair is returned unchanged, not swapped as the claim asserts. -/
theorem disambiguate_13_digit_no_swap :
    disambiguate "1234567890123" "123456789" = ("1234567890123", "123456789") ∧
      disambiguate "1234567890123" "123456789" ≠ ("123456789", "1234567890123") := by
  decide

/-- C7 (amended): when both values are present, the swap fires exactly when
    the PAN-column value's cleaned length strictly exceeds 13 and the
    account-column value's cleaned length is 1-13; e.g. the 14-digit value
    "12345678901234" with account value "123456789" is swapped, while the
    13-digit value "1234567890123" is not (13 does not exceed 13). -/
theorem disambiguate_swap_rule (pc ac : String) (h13 : 13 < pc.length)
    (hle : ac.length ≤ 13) (hpos : 0 < ac.length) :
    disambiguate pc ac = (ac, pc) ∧
      disambiguate "12345678901234" "123456789" = ("123456789", "12345678901234") ∧
      disambiguate "1234567890123" "123456789" = ("1234567890123", "123456789") := by
  refine ⟨?_, by decide, by decide⟩
  unfold disambiguate
  rw [if_pos ⟨h13, hle, hpos⟩]

/-- C7 witness: the amended swap rule applied at the 14-digit instance. -/
theorem disambiguate_swap_rule_witness :
    13 < ("12345678901234" : String).length ∧
      disambiguate "12345678901234" "123456789" = ("123456789", "12345678901234") :=
  ⟨by decide,
    (disambiguate_swap_rule "12345678901234" "123456789" (by decide) (by decide)
      (by decide)).2.1⟩

/- Preeti-to-Unicode transliteration engine (src/utils/preetiToUnicode.ts).
   JS String#split(sep).join(rep) with a literal separator is modelled by
   replaceAllL; the two regex post-passes (repha repositioning and the
   double-vowel-sign collapse) are modelled directly on character lists. -/

theorem collapseChar_cons (c b : Char) (rest : List Char) :
    ∃ t, collapseChar c (b :: rest) = b :: t := by
  induction rest generalizing b with
  | nil => exact ⟨[], rfl⟩
  | cons r rs ih =>
    by_cases h : (b == c && r == c) = true
    · obtain ⟨t, ht⟩ := ih r
      have hb : b = c := eq_of_beq ((Bool.and_eq_true _ _).mp h).1
      have hr : r = c := eq_of_beq ((Bool.and_eq_true _ _).mp h).2
      refine ⟨t, ?_⟩
      simp only [collapseChar]
      rw [if_pos h, ht, hb, hr]
    · refine ⟨collapseChar c (r :: rs), ?_⟩
      simp only [collapseChar]
      rw [if_neg h]

theorem hasAdjacent_collapse_self (c : Char) (l : List Char) :
    hasAdjacent c (collapseChar c l) = false := by
  induction l with
  | nil => rfl
  | cons a t ih =>
    cases t with
    | nil => rfl
    | cons b rest =>
      by_cases h : (a == c && b == c) = true
      · simp only [collapseChar]
        rw [if_pos h]
        exact ih
      · obtain ⟨t', ht'⟩ := collapseChar_cons c b rest
        have hf : (a == c && b == c) = false := by
          revert h; cases (a == c && b == c) <;> simp
        simp only [collapseChar]
        rw [if_neg h, ht']
        simp only [hasAdjacent]
        rw [← ht', hf, ih]
        rfl

theorem hasAdjacent_collapse_other (c d : Char) (l : List Char) :
    hasAdjacent d l = false → hasAdjacent d (collapseChar c l) = false := by
  induction l with
  | nil => intro h; exact h
  | cons a t ih =>
    cases t with
    | nil => intro h; exact h
    | cons b rest =>
      intro h
      have h1 : (a == d && b == d) = false ∧ hasAdjacent d (b :: rest) = false := by
        simpa only [hasAdjacent, Bool.or_eq_false_iff] using h
      by_cases hc : (a == c && b == c) = true
      · simp only [collapseChar]
        rw [if_pos hc]
        exact ih h1.2
      · obtain ⟨t', ht'⟩ := collapseChar_cons c b rest
        simp only [collapseChar]
        rw [if_neg hc, ht']
        simp only [hasAdjacent]
        rw [← ht', h1.1, ih h1.2]
        rfl

theorem hasAdjacent_collapse_fold_pres (cs : List Char) (d : Char) :
    ∀ l, hasAdjacent d l = false →
      hasAdjacent d (cs.foldl (fun a x => collapseChar x a) l) = false := by
  induction cs with
  | nil => intro l h; simpa using h
  | cons x cs ih =>
    intro l h
    simp only [List.foldl_cons]
    exact ih _ (hasAdjacent_collapse_other x d l h)

theorem hasAdjacent_collapse_fold (cs : List Char) (c : Char) :
    c ∈ cs → ∀ l, hasAdjacent c (cs.foldl (fun a x => collapseChar x a) l) = false := by
  induction cs with
  | nil => intro hmem; cases hmem
  | cons x cs ih =>
    intro hmem l
    simp only [List.foldl_cons]
    rcases List.mem_cons.mp hmem with hcx | hmem'
    · subst hcx
      exact hasAdjacent_collapse_fold_pres cs c _ (hasAdjacent_collapse_self c l)
    · exact ih hmem' _

/-- C6 counterexample: the input "[[" transliterates to two adjacent copies
    of the combining vowel sign ृ (vocalic r, U+0943), which fixVowelSigns
    does not collapse — so the output is not free of doubled combining
    vowel signs as the claim states. -/
theorem convertPreetiToUnicode_doubled_vocalic_r :
    convertPreetiToUnicode "[[" = "ृृ" ∧ 'ृ' ∈ devanagariVowelSigns ∧
      hasAdjacent 'ृ' (convertPreetiToUnicode "[[").data = true := by decide

/-- C6 (amended): after transliteration the output contains no run of two or
    more identical copies of any of the NINE vowel signs handled by
    fixVowelSigns (ा ि ी ु ू े ै ो ौ); the vocalic-r sign ृ is not
    collapsed. -/
theorem convertPreetiToUnicode_no_doubled_collapsed_sign (s : String) (c : Char)
    (hc : c ∈ vowelCollapseList) :
    hasAdjacent c (convertPreetiToUnicode s).data = false := by
  by_cases hs : s = ""
  · subst hs
    have h0 : convertPreetiToUnicode "" = "" := rfl
    rw [h0]
    have h1 : ("" : String).data = [] := rfl
    rw [h1]
    rfl
  · have heq : convertPreetiToUnicode s =
        fixVowelSigns ⟨scanMap (handleRephaL (SPECIAL_SEQUENCES.foldl
          (fun acc pu => replaceAllL pu.1.data pu.2.data acc) s.data))⟩ := by
      unfold convertPreetiToUnicode
      rw [if_neg hs]
    have hdata : ∀ l : List Char, (fixVowelSigns ⟨l⟩).data =
        vowelCollapseList.foldl (fun a x => collapseChar x a) l := fun _ => rfl
    rw [heq, hdata]
    exact hasAdjacent_collapse_fold vowelCollapseList c hc _

/-- C6 witness: the amended theorem applied at the concrete input "ff"
    (which transliterates to a doubled ा before the collapse pass) and the
    vowel sign ा. -/
theorem convertPreetiToUnicode_no_doubled_collapsed_sign_witness :
    'ा' ∈ vowelCollapseList ∧
      hasAdjacent 'ा' (convertPreetiToUnicode "ff").data = false :=
  ⟨by decide, convertPreetiToUnicode_no_doubled_collapsed_sign "ff" 'ा' (by decide)⟩

/- Deduplication and upsert planner (insertRows in uploadController.ts).
   Each parsed row becomes one bulk updateOne op with filter {pan}, a $set
   clause rewriting the mutable fields and a $setOnInsert clause for the
   identity fields, with upsert: true.  MongoDB's sequential execution of
   the ops against a pan-keyed collection is modelled as in-order list
   application; amounts are modelled at integer values and the uploadedAt
   Date by a numeric timestamp. -/

theorem findRec_cons_pos (r : StoredRecord) (rest : List StoredRecord)
    (p : String) (h : r.pan = p) : findRec (r :: rest) p = some r := by
  simp [findRec, List.find?_cons_of_pos, h]

theorem findRec_cons_neg (r : StoredRecord) (rest : List StoredRecord)
    (p : String) (h : r.pan ≠ p) : findRec (r :: rest) p = findRec rest p := by
  simp [findRec, List.find?_cons_of_neg, h]

theorem setMutable_pan (r : StoredRecord) (row : ParsedRow) (src : String)
    (now : Nat) : (setMutable r row src now).pan = r.pan := rfl

theorem applyOp_cons_pos (r : StoredRecord) (rest : List StoredRecord)
    (row : ParsedRow) (src : String) (now : Nat) (h : r.pan = row.pan) :
    applyOp (r :: rest) row src now = setMutable r row src now :: rest := by
  simp [applyOp, h]

theorem applyOp_cons_neg (r : StoredRecord) (rest : List StoredRecord)
    (row : ParsedRow) (src : String) (now : Nat) (h : ¬r.pan = row.pan) :
    applyOp (r :: rest) row src now = r :: applyOp rest row src now := by
  simp [applyOp, h]

theorem applyOp_pans (db : List StoredRecord) (row : ParsedRow) (src : String)
    (now : Nat) :
    (applyOp db row src now).map (·.pan) =
      if row.pan ∈ db.map (·.pan) then db.map (·.pan)
      else db.map (·.pan) ++ [row.pan] := by
  induction db with
  | nil => simp [applyOp, insertRecord]
  | cons r rest ih =>
    by_cases hr : r.pan = row.pan
    · rw [applyOp_cons_pos r rest row src now hr]
      have hmem : row.pan ∈ (r :: rest).map (·.pan) := by
        simp [List.mem_cons, hr.symm]
      rw [if_pos hmem]
      simp [setMutable_pan]
    · rw [applyOp_cons_neg r rest row src now hr]
      have hcons : row.pan ∈ (r :: rest).map (·.pan) ↔ row.pan ∈ rest.map (·.pan) := by
        simp only [List.map_cons, List.mem_cons]
        constructor
        · rintro (hx | hx)
          · exact absurd hx.symm hr
          · exact hx
        · exact Or.inr
      by_cases hm : row.pan ∈ rest.map (·.pan)
      · rw [if_pos (hcons.mpr hm)]
        simp only [List.map_cons]
        rw [ih, if_pos hm]
      · rw [if_neg (fun hx => hm (hcons.mp hx))]
        simp only [List.map_cons]
        rw [ih, if_neg hm]
        rfl

theorem applyOp_nodup (db : List StoredRecord) (row : ParsedRow) (src : String)
    (now : Nat) (h : nodupPans db) : nodupPans (applyOp db row src now) := by
  unfold nodupPans at *
  rw [applyOp_pans]
  by_cases hm : row.pan ∈ db.map (·.pan)
  · simpa [hm] using h
  · simp only [hm, if_false]
    simp [List.nodup_append, h, hm]

theorem applyOp_find_self (db : List StoredRecord) (row : ParsedRow)
    (src : String) (now : Nat) :
    ∃ r₁, findRec (applyOp db row src now) row.pan = some r₁ ∧
      mutableOf r₁ = rowMutableOf row src now ∧
      (∀ r₀, findRec db row.pan = some r₀ → identityOf r₁ = identityOf r₀) ∧
      (findRec db row.pan = none → identityOf r₁ = rowIdentityOf row) := by
  induction db with
  | nil =>
    refine ⟨insertRecord row src now, ?_, rfl, ?_, fun _ => rfl⟩
    · exact findRec_cons_pos _ _ _ rfl
    · intro r₀ h0
      exact absurd h0 (by simp [findRec])
  | cons r rest ih =>
    by_cases hr : r.pan = row.pan
    · refine ⟨setMutable r row src now, ?_, rfl, ?_, ?_⟩
      · rw [applyOp_cons_pos r rest row src now hr]
        exact findRec_cons_pos _ _ _ (by rw [setMutable_pan, hr])
      · intro r₀ h0
        rw [findRec_cons_pos r rest row.pan hr] at h0
        cases h0
        rfl
      · intro h0
        rw [findRec_cons_pos r rest row.pan hr] at h0
        cases h0
    · obtain ⟨r₁, hfind, hmut, hidsome, hidnone⟩ := ih
      refine ⟨r₁, ?_, hmut, ?_, ?_⟩
      · rw [applyOp_cons_neg r rest row src now hr]
        rw [findRec_cons_neg r _ row.pan hr]
        exact hfind
      · intro r₀ h0
        rw [findRec_cons_neg r rest row.pan hr] at h0
        exact hidsome r₀ h0
      · intro h0
        rw [findRec_cons_neg r rest row.pan hr] at h0
        exact hidnone h0

theorem applyOp_find_frame (db : List StoredRecord) (row : ParsedRow)
    (src : String) (now : Nat) (q : String) (hq : q ≠ row.pan) :
    findRec (applyOp db row src now) q = findRec db q := by
  induction db with
  | nil =>
    have h1 : applyOp [] row src now = [insertRecord row src now] := rfl
    have hpan : (insertRecord row src now).pan = row.pan := rfl
    rw [h1]
    rw [findRec_cons_neg _ _ _ (by rw [hpan]; exact fun hc => hq hc.symm)]
  | cons r rest ih =>
    by_cases hr : r.pan = row.pan
    · rw [applyOp_cons_pos r rest row src now hr]
      have hrq : r.pan ≠ q := fun hc => hq (hc.symm.trans hr)
      rw [findRec_cons_neg _ _ _ (by rw [setMutable_pan]; exact hrq),
        findRec_cons_neg _ _ _ hrq]
    · rw [applyOp_cons_neg r rest row src now hr]
      by_cases hrp : r.pan = q
      · rw [findRec_cons_pos _ _ _ hrp, findRec_cons_pos _ _ _ hrp]
      · rw [findRec_cons_neg _ _ _ hrp, findRec_cons_neg _ _ _ hrp]
        exact ih

theorem applyBatch_cons (db : List StoredRecord) (row : ParsedRow)
    (rest : List ParsedRow) (src : String) (now : Nat) :
    applyBatch db (row :: rest) src now =
      applyBatch (applyOp db row src now) rest src now := rfl

theorem applyBatch_nodup (db : List StoredRecord) (rows : List ParsedRow)
    (src : String) (now : Nat) (h : nodupPans db) :
    nodupPans (applyBatch db rows src now) := by
  induction rows generalizing db with
  | nil => exact h
  | cons row rest ih =>
    rw [applyBatch_cons]
    exact ih _ (applyOp_nodup db row src now h)

theorem applyBatch_frame (db : List StoredRecord) (rows : List ParsedRow)
    (src : String) (now : Nat) (q : String)
    (h : ∀ row ∈ rows, row.pan ≠ q) :
    findRec (applyBatch db rows src now) q = findRec db q := by
  induction rows generalizing db with
  | nil => rfl
  | cons row rest ih =>
    rw [applyBatch_cons]
    rw [ih _ (fun r hr => h r (List.mem_cons_of_mem row hr))]
    exact applyOp_find_frame db row src now q
      (fun hc => h row (List.mem_cons_self row rest) hc.symm)

theorem applyOp_identity_pres (db : List StoredRecord) (row : ParsedRow)
    (src : String) (now : Nat) (p : String) (r₀ : StoredRecord)
    (h : findRec db p = some r₀) :
    ∃ r₁, findRec (applyOp db row src now) p = some r₁ ∧
      identityOf r₁ = identityOf r₀ := by
  by_cases hp : p = row.pan
  · subst hp
    obtain ⟨r₁, hfind, _, hidsome, _⟩ := applyOp_find_self db row src now
    exact ⟨r₁, hfind, hidsome r₀ h⟩
  · exact ⟨r₀, by rw [applyOp_find_frame db row src now p hp]; exact h, rfl⟩

theorem applyBatch_identity_pres (db : List StoredRecord) (rows : List ParsedRow)
    (src : String) (now : Nat) (p : String) (r₀ : StoredRecord)
    (h : findRec db p = some r₀) :
    ∃ r₁, findRec (applyBatch db rows src now) p = some r₁ ∧
      identityOf r₁ = identityOf r₀ := by
  induction rows generalizing db r₀ with
  | nil => exact ⟨r₀, h, rfl⟩
  | cons row rest ih =>
    obtain ⟨r₁, hfind, hid⟩ := applyOp_identity_pres db row src now p r₀ h
    obtain ⟨r₂, hfind₂, hid₂⟩ := ih (applyOp db row src now) r₁ hfind
    exact ⟨r₂, by rw [applyBatch_cons]; exact hfind₂, hid₂.trans hid⟩

theorem applyBatch_last_write_wins_aux (rows : List ParsedRow)
    (src : String) (now : Nat) (p : String) (lrow : ParsedRow) :
    ∀ db, (rows.filter (fun r => r.pan = p)).getLast? = some lrow →
      ∃ r₁, findRec (applyBatch db rows src now) p = some r₁ ∧
        mutableOf r₁ = rowMutableOf lrow src now := by
  induction rows with
  | nil => intro db h; simp at h
  | cons row rest ih =>
    intro db h
    by_cases hrest : rest.filter (fun r => r.pan = p) = []
    · have hp : row.pan = p := by
        by_contra hp
        rw [List.filter_cons_of_neg (by simp [hp])] at h
        rw [hrest] at h
        exact absurd h (by simp)
      have hl : lrow = row := by
        rw [List.filter_cons_of_pos (by simp [hp])] at h
        rw [hrest] at h
        simpa using h.symm
      subst hl
      rw [applyBatch_cons]
      obtain ⟨r₁, hfind, hmut, _, _⟩ := applyOp_find_self db lrow src now
      refine ⟨r₁, ?_, hmut⟩
      have hnone : ∀ r ∈ rest, r.pan ≠ p := by
        intro r hr hc
        have hmem : r ∈ rest.filter (fun r => r.pan = p) :=
          List.mem_filter.mpr ⟨hr, by simp [hc]⟩
        rw [hrest] at hmem
        cases hmem
      rw [applyBatch_frame _ rest src now p hnone, ← hp]
      exact hfind
    · have hres : (rest.filter (fun r => r.pan = p)).getLast? = some lrow := by
        by_cases hp : row.pan = p
        · rw [List.filter_cons_of_pos (by simp [hp])] at h
          cases hfr : rest.filter (fun r => r.pan = p) with
          | nil => exact absurd hfr hrest
          | cons b t =>
            rw [hfr] at h
            rw [List.getLast?_cons_cons] at h
            exact h
        · rw [List.filter_cons_of_neg (by simp [hp])] at h
          exact h
      rw [applyBatch_cons]
      exact ih (applyOp db row src now) hres

/-- C2: under the identity-keyed upsert there is exactly one stored record
    per identifier (pan-uniqueness is preserved by every batch); the
    identity fields (name, position, department, account number and their
    Nepali variants) of an already-stored record are never overwritten by
    later uploads; and each op overwrites the mutable fields (duty days,
    rate, amounts, hash, source, upload timestamp) with the row's values,
    setting identity fields only when the identifier is first seen
    ($setOnInsert). -/
theorem upsert_identity_frame (db : List StoredRecord) (rows : List ParsedRow)
    (row : ParsedRow) (src : String) (now : Nat) (h : nodupPans db) :
    nodupPans (applyBatch db rows src now) ∧
      (∀ p r₀, findRec db p = some r₀ →
        ∃ r₁, findRec (applyBatch db rows src now) p = some r₁ ∧
          identityOf r₁ = identityOf r₀) ∧
      (∃ r₁, findRec (applyOp db row src now) row.pan = some r₁ ∧
        mutableOf r₁ = rowMutableOf row src now ∧
        (∀ r₀, findRec db row.pan = some r₀ → identityOf r₁ = identityOf r₀) ∧
        (findRec db row.pan = none → identityOf r₁ = rowIdentityOf row)) :=
  ⟨applyBatch_nodup db rows src now h,
    fun p r₀ h₀ => applyBatch_identity_pres db rows src now p r₀ h₀,
    applyOp_find_self db row src now⟩

/-- C2 witness: the theorem applied to a concrete one-record store and a
    concrete row carrying the same identifier but different identity and
    mutable values. -/
theorem upsert_identity_frame_witness :
    nodupPans demoDb ∧
      (∃ r₁, findRec (applyOp demoDb demoRow "b.xlsx" 2) demoRow.pan = some r₁ ∧
        mutableOf r₁ = rowMutableOf demoRow "b.xlsx" 2 ∧
        (∀ r₀, findRec demoDb demoRow.pan = some r₀ →
          identityOf r₁ = identityOf r₀) ∧
        (findRec demoDb demoRow.pan = none →
          identityOf r₁ = rowIdentityOf demoRow)) :=
  ⟨by unfold nodupPans; decide,
    (upsert_identity_frame demoDb [demoRow] demoRow "b.xlsx" 2
      (by unfold nodupPans; decide)).2.2⟩

/-- C3: within one batch, when several rows share an identifier, the row
    that is later in file-processing order (the last element of the filtered
    row list) determines the stored mutable-field values: ops are applied
    strictly in row order, so the tie-break is last-write-wins and does not
    depend on any incidental iteration order. -/
theorem applyBatch_last_write_wins (db : List StoredRecord)
    (rows : List ParsedRow) (src : String) (now : Nat) (p : String)
    (lrow : ParsedRow)
    (h : (rows.filter (fun r => r.pan = p)).getLast? = some lrow) :
    ∃ r₁, findRec (applyBatch db rows src now) p = some r₁ ∧
      mutableOf r₁ = rowMutableOf lrow src now :=
  applyBatch_last_write_wins_aux rows src now p lrow db h

/-- C3 witness: a two-row batch sharing one identifier, applied to the empty
    store; the second row's mutable values win. -/
theorem applyBatch_last_write_wins_witness :
    ([demoRow, demoRow2].filter (fun r => r.pan = "000000001")).getLast? =
        some demoRow2 ∧
      ∃ r₁, findRec (applyBatch [] [demoRow, demoRow2] "c.xlsx" 3) "000000001" =
          some r₁ ∧
        mutableOf r₁ = rowMutableOf demoRow2 "c.xlsx" 3 :=
  ⟨by decide,
    applyBatch_last_write_wins [] [demoRow, demoRow2] "c.xlsx" 3 "000000001"
      demoRow2 (by decide)⟩

/- Header locator and column classifier (findColumns / findColumnByPatterns
   in uploadController.ts).  A worksheet is the list of its (non-empty)
   rows; a row is the ordered list of its populated cells as
   (column index, cell value) pairs with 1-based column indexes, which is
   how row.eachCell({includeEmpty: false}) presents them. -/

theorem mkMapping_headerRow (n : Nat) (h : List (Nat × String)) :
    (mkMapping n h).headerRow = n := rfl

theorem checkHeaderRow_some (n : Nat) (r : Row) (m : ColumnMapping)
    (h : checkHeaderRow n r = some m) :
    rowQualifies r = true ∧ m = mkMapping n (rowHeaders r) := by
  unfold checkHeaderRow at h
  by_cases hq : rowQualifies r = true
  · rw [if_pos hq] at h
    exact ⟨hq, (Option.some.injEq _ _ ▸ h).symm⟩
  · rw [if_neg hq] at h
    cases h

theorem checkHeaderRow_none (n : Nat) (r : Row)
    (h : checkHeaderRow n r = none) : rowQualifies r = false := by
  unfold checkHeaderRow at h
  by_cases hq : rowQualifies r = true
  · rw [if_pos hq] at h; cases h
  · exact Bool.not_eq_true _ ▸ hq

theorem findColumnsGo_some (l : List Row) (n : Nat) (m : ColumnMapping) :
    findColumnsGo l n = some m →
      ∃ i, i < l.length ∧ rowQualifies (l.getD i []) = true ∧
        m.headerRow = n + i ∧ ∀ j, j < i → rowQualifies (l.getD j []) = false := by
  induction l generalizing n with
  | nil => intro h; cases h
  | cons r rest ih =>
    intro h
    unfold findColumnsGo at h
    cases hc : checkHeaderRow n r with
    | some m' =>
      rw [hc] at h
      injection h with hme
      obtain ⟨hq, hm⟩ := checkHeaderRow_some n r m' hc
      refine ⟨0, by simp, by simpa using hq, ?_, fun j hj => absurd hj (by omega)⟩
      rw [← hme, hm, mkMapping_headerRow]
      omega
    | none =>
      rw [hc] at h
      obtain ⟨i, hlen, hq, hrow, hprev⟩ := ih (n + 1) h
      refine ⟨i + 1, by simpa using Nat.succ_lt_succ hlen, by simpa using hq, by omega, ?_⟩
      intro j hj
      cases j with
      | zero => simpa using checkHeaderRow_none n r hc
      | succ j => simpa using hprev j (by omega)

theorem findColumnsGo_none (l : List Row) (n : Nat) :
    findColumnsGo l n = none →
      ∀ i, i < l.length → rowQualifies (l.getD i []) = false := by
  induction l generalizing n with
  | nil => intro _ i hi; simp at hi
  | cons r rest ih =>
    intro h i hi
    unfold findColumnsGo at h
    cases hc : checkHeaderRow n r with
    | some m' => rw [hc] at h; cases h
    | none =>
      rw [hc] at h
      cases i with
      | zero => simpa using checkHeaderRow_none n r hc
      | succ i => simpa using ih (n + 1) h i (by simpa using Nat.lt_of_succ_lt_succ hi)

theorem getD_take (l : List Row) (n i : Nat) (h : i < n) :
    (l.take n).getD i [] = l.getD i [] := by
  induction l generalizing n i with
  | nil => simp
  | cons a t ih =>
    cases n with
    | zero => omega
    | succ n =>
      cases i with
      | zero => simp
      | succ i =>
        simp only [List.take_succ_cons, List.getD_cons_succ]
        exact ih n i (by omega)

/-- C8: the header locator scans at most the first min(20, rowCount) rows
    and returns the first row carrying both an identifier-family column
    (PAN/account synonyms) and an amount-family column (net/gross
    synonyms); if no row in that window qualifies, the caller's fallback
    mapping has headerRow = 0, so no row is skipped as pre-header and every
    row is a data-row candidate. -/
theorem findColumns_header_locator (ws : List Row) :
    (∀ m, findColumns ws = some m →
      1 ≤ m.headerRow ∧ m.headerRow ≤ min 20 ws.length ∧
        rowQualifies (wsRow ws m.headerRow) = true ∧
        ∀ r, 1 ≤ r → r < m.headerRow → rowQualifies (wsRow ws r) = false) ∧
      (findColumns ws = none →
        (∀ r, 1 ≤ r → r ≤ min 20 ws.length → rowQualifies (wsRow ws r) = false) ∧
          (effectiveMapping ws).headerRow = 0) := by
  have hlen : (ws.take 20).length = min 20 ws.length := by
    simp [List.length_take]
  constructor
  · intro m h
    obtain ⟨i, hi, hq, hrow, hprev⟩ := findColumnsGo_some (ws.take 20) 1 m h
    rw [hlen] at hi
    have h20 : i < 20 := lt_of_lt_of_le hi (min_le_left _ _)
    refine ⟨by omega, by omega, ?_, ?_⟩
    · unfold wsRow
      rw [hrow]
      have : 1 + i - 1 = i := by omega
      rw [this, ← getD_take ws 20 i h20]
      exact hq
    · intro r hr1 hrm
      unfold wsRow
      have hj : r - 1 < i := by omega
      rw [← getD_take ws 20 (r - 1) (by omega)]
      exact hprev (r - 1) hj
  · intro h
    constructor
    · intro r hr1 hrm
      have := findColumnsGo_none (ws.take 20) 1 h (r - 1) (by rw [hlen]; omega)
      unfold wsRow
      rw [← getD_take ws 20 (r - 1) (by omega)]
      exact this
    · unfold effectiveMapping
      rw [h]
      rfl

/-- C8 witness: the header-locator theorem applied to a concrete worksheet
    whose header sits in row 2. -/
theorem findColumns_header_locator_witness :
    findColumns demoHeaderWs = some demoMapping ∧
      demoMapping.headerRow ≤ min 20 demoHeaderWs.length ∧
      rowQualifies (wsRow demoHeaderWs demoMapping.headerRow) = true :=
  ⟨by decide,
    ((findColumns_header_locator demoHeaderWs).1 demoMapping (by decide)).2.1,
    ((findColumns_header_locator demoHeaderWs).1 demoMapping (by decide)).2.2.1⟩

/- Row classification and outcome counters (processWorksheet / insertRows,
   uploadController.ts).  Each worksheet row is classified exactly as the
   eachRow callback does: pre-header skip, header-like skip, identifier
   assembly (mapped columns, whole-row digit scan, PAN/account swap,
   normalization, account fallback), the no-identifier skip, the
   rowsRead++ counter, and the invalid-identifier skip (result.skipped++).
   Rows that survive are emitted; only their identifier (row.pan) feeds the
   outcome counters downstream, so the emitted row is represented by its
   identifier.  The catch branch of the loop body is unreachable here: no
   extraction step after the validity check can throw. -/

theorem outcome_counts (os : List RowOutcome) :
    (os.filter outcomeCounted).length =
      (os.filter outcomeInvalid).length + (os.filterMap outcomePan).length := by
  induction os with
  | nil => rfl
  | cons o rest ih =>
    cases o <;>
      simp [List.filter_cons, List.filterMap_cons, outcomeCounted,
        outcomeInvalid, outcomePan, ih] <;> omega

theorem processWorksheetModel_counts (ws : List Row) :
    (processWorksheetModel ws).rowsRead =
      (processWorksheetModel ws).wsSkipped +
        (processWorksheetModel ws).pans.length := by
  unfold processWorksheetModel
  exact outcome_counts (classifyWorksheet ws)

theorem fileRowsRead_split (file : List (List Row)) :
    fileRowsRead file = fileWsSkipped file + (filePans file).length := by
  unfold fileRowsRead fileWsSkipped filePans fileStats
  induction file with
  | nil => rfl
  | cons ws rest ih =>
    simp only [List.map_cons, List.sum_cons, List.flatten_cons, List.length_append]
    rw [processWorksheetModel_counts ws]
    omega

theorem bulkCounts_total (pans : List String) :
    ∀ db, (bulkCounts db pans).1 + (bulkCounts db pans).2 = pans.length := by
  induction pans with
  | nil => intro db; rfl
  | cons p rest ih =>
    intro db
    by_cases hm : p ∈ db
    · simp only [bulkCounts, if_pos hm]
      have := ih db
      simp only [List.length_cons]
      omega
    · simp only [bulkCounts, if_neg hm]
      have := ih (p :: db)
      simp only [List.length_cons]
      omega

/-- C1 accounting identity of the model: the per-file counters satisfy
    rowsRead = inserted + updated + skipped + (parse-stage skips) whenever
    at least one row parsed; the claimed identity
    rowsRead = inserted + updated + skipped therefore holds exactly when
    no row was skipped during parsing, because the success path of
    insertRows overwrites the accumulated skipped counter. -/
theorem processFileModel_counter_accounting (file : List (List Row))
    (db : List String) :
    (processFileModel file db).rowsRead =
      (processFileModel file db).inserted + (processFileModel file db).updated +
        (processFileModel file db).skipped +
        (if filePans file = [] then 0 else fileWsSkipped file) := by
  by_cases hp : filePans file = []
  · simp only [processFileModel, hp, if_pos rfl, if_true]
    have := fileRowsRead_split file
    rw [hp] at this
    simpa using this
  · simp only [processFileModel, hp, if_neg hp, if_false]
    have htot := bulkCounts_total (filePans file) db
    have hsplit := fileRowsRead_split file
    omega

/-- C1 failing input: processing a file holding one 21-digit-identifier row
    (read, then skipped as invalid) and one valid row, against an empty
    store, yields rowsRead = 2 but inserted + updated + skipped = 1: the
    success path of insertRows overwrites the skipped counter instead of
    adding to it, so the claimed identity fails. -/
theorem processFileModel_counter_mismatch :
    processFileModel demoFile [] =
        { rowsRead := 2, inserted := 1, updated := 0, skipped := 0 } ∧
      (processFileModel demoFile []).rowsRead ≠
        (processFileModel demoFile []).inserted +
          (processFileModel demoFile []).updated +
          (processFileModel demoFile []).skipped := by
  constructor
  · decide
  · decide
